import Mathlib

/-!
# Verification of the yprice price-refresh orchestration engine

Shallow embedding of `src/services/priceService.ts` (class `PriceService`):
the native-asset aliasing and batch logic of `fetchAndStorePrices`, the
batch/group orchestration of `fetchDiscoveredTokens`, and the periodic
scheduler `startPeriodicFetch`.  External collaborators (the price fetcher,
the price storage, the progress tracker internals) are parameters of the
embedding; the progress tracker, whose source is not in the repository
snapshot, is modelled from the specification where a claim needs its state.
-/

namespace YPrice

/-- `ERC20Token` from `src/models` as used by `priceService.ts`:
`{address, name, symbol, decimals, chainId}`. -/
structure ERC20Token where
  address : String
  name : String
  symbol : String
  decimals : Nat
  chainId : Nat
deriving DecidableEq, Repr

/-- Price record as produced by the price fetcher and consumed by storage:
`{address, price, chainId}` (spread-copied by the aliasing step, so the
exact field set beyond `address` only rides along). -/
structure PriceRecord where
  address : String
  price : Rat
  chainId : Nat
deriving DecidableEq, Repr

/-- JS `String.prototype.toLowerCase` restricted to the ASCII addresses the
service handles (`t.address.toLowerCase()`). -/
def lower (s : String) : String :=
  String.mk (s.data.map Char.toLower)

/-- The guard `chainId === 1 || chainId === 10 || chainId === 42161 || chainId === 8453`
(lines 16 and 39 of `priceService.ts`). -/
def isRegistered (chainId : Nat) : Bool :=
  chainId == 1 || chainId == 10 || chainId == 42161 || chainId == 8453

/-- The `wethAddresses` table of `priceService.ts` (lines 17-22 / 40-45):
wrapped-native token address per registered chain. -/
def wethAddresses (chainId : Nat) : Option String :=
  if chainId == 1 then some "0xc02aaa39b223fe8d0a0e5c4f27ead9083c756cc2"
  else if chainId == 10 then some "0x4200000000000000000000000000000000000006"
  else if chainId == 42161 then some "0x82af49447d8a07e3bd95bd0d56f35241523fbab1"
  else if chainId == 8453 then some "0x4200000000000000000000000000000000000006"
  else none

/-- The reserved zero address used for the native-coin alias record. -/
def ZERO_ADDRESS : String := "0x0000000000000000000000000000000000000000"

/-- The synthetic wrapped-native token pushed by `fetchAndStorePrices`
(lines 26-32). -/
def wethToken (wethAddress : String) (chainId : Nat) : ERC20Token :=
  { address := wethAddress
    name := "Wrapped Ether"
    symbol := "WETH"
    decimals := 18
    chainId := chainId }

/-- A JS `Map<string, PriceRecord>` in insertion order, as returned by
`fetcher.fetchPrices`. -/
abbrev PriceMap := List (String × PriceRecord)

/-- `Map.prototype.get`. -/
def mapGet (m : PriceMap) (k : String) : Option PriceRecord :=
  (m.find? (fun p => p.1 == k)).map Prod.snd

/-- `Map.prototype.set`: replaces the value in place when the key is
present, appends otherwise (JS maps keep insertion order). -/
def mapSet (m : PriceMap) (k : String) (v : PriceRecord) : PriceMap :=
  if m.any (fun p => p.1 == k) then
    m.map (fun p => if p.1 == k then (k, v) else p)
  else
    m ++ [(k, v)]

/-- `Array.from(prices.values())`. -/
def mapValues (m : PriceMap) : List PriceRecord :=
  m.map Prod.snd

/-- Lines 15-34 of `fetchAndStorePrices`: copy the input token array and,
for a registered chain whose wrapped-native address is not already present
(case-insensitive address match), push the synthetic wrapped-native token. -/
def tokensWithNative (chainId : Nat) (tokens : List ERC20Token) : List ERC20Token :=
  if isRegistered chainId then
    match wethAddresses chainId with
    | some wethAddress =>
        if tokens.any (fun t => lower t.address == wethAddress) then tokens
        else tokens ++ [wethToken wethAddress chainId]
    | none => tokens
  else tokens

/-- Lines 39-55 of `fetchAndStorePrices`: for a registered chain, if the
fetched map has a record at the wrapped-native address, `set` a copy of it
with the address replaced by the zero address. -/
def applyNativeAlias (chainId : Nat) (prices : PriceMap) : PriceMap :=
  if isRegistered chainId then
    match wethAddresses chainId with
    | some wethAddress =>
        match mapGet prices wethAddress with
        | some wethPrice =>
            mapSet prices ZERO_ADDRESS { wethPrice with address := ZERO_ADDRESS }
        | none => prices
    | none => prices
  else prices

/-- Observable actions of the service: calls to the progress tracker, to the
price fetcher, to the price storage, and error logging. -/
inductive Event where
  | trackerStart (key : String) (label : String) (total : Nat) (chainId : Option Nat)
  | trackerUpdate (key : String) (value : Nat)
  | trackerIncrement (key : String)
  | trackerComplete (key : String)
  | fetchCall (chainId : Nat) (tokens : List ERC20Token)
  | storeCall (chainId : Nat) (records : List PriceRecord)
  | logError (message : String)
  | sleep (ms : Nat)
deriving DecidableEq, Repr

/-- `PriceService.fetchAndStorePrices(chainId, tokens)` (lines 13-64) as the
list of observable events of one batch's fetch-and-store cycle.  The fetcher
and the storage are parameters; either may throw (`Except.error`).  The
whole body sits in a `try`/`catch` that logs and returns normally, so the
embedding is a total function: no exception escapes a batch. -/
def fetchAndStorePrices (fetch : Nat → List ERC20Token → Except String PriceMap)
    (store : Nat → List PriceRecord → Except String Unit)
    (chainId : Nat) (tokens : List ERC20Token) : List Event :=
  let tokensWN := tokensWithNative chainId tokens
  match fetch chainId tokensWN with
  | Except.error _ =>
      [Event.fetchCall chainId tokensWN,
       Event.logError ("Error fetching prices for chain " ++ toString chainId)]
  | Except.ok prices =>
      let prices' := applyNativeAlias chainId prices
      let pricesArray := mapValues prices'
      if pricesArray.length > 0 then
        match store chainId pricesArray with
        | Except.ok _ =>
            [Event.fetchCall chainId tokensWN, Event.storeCall chainId pricesArray]
        | Except.error _ =>
            [Event.fetchCall chainId tokensWN, Event.storeCall chainId pricesArray,
             Event.logError ("Error fetching prices for chain " ++ toString chainId)]
      else
        [Event.fetchCall chainId tokensWN]

/-- lodash `chunk(l, n)`: splits `l` into contiguous pieces of size `n`, the
last possibly shorter; `chunk l 0 = []` (lodash returns `[]` for size < 1). -/
def chunk (l : List α) (n : Nat) : List (List α) :=
  if n = 0 then []
  else if l.isEmpty then []
  else l.take n :: chunk (l.drop n) n
termination_by l.length
decreasing_by
  have hn : ¬ n = 0 := by assumption
  have hl : ¬ l.isEmpty = true := by assumption
  have hl' : l ≠ [] := by simpa [List.isEmpty_iff] using hl
  have hpos : 0 < l.length := List.length_pos.mpr hl'
  simp only [List.length_drop]
  omega

/-- The per-chain closure of `fetchDiscoveredTokens` (lines 77-108): empty
token lists only bump the `"processing-all"` counter; otherwise the tokens
are split into batches of 500, a per-chain tracker entry is started, the
batch groups (3 batches each) run in sequence — each group's batches fetch
and store, then the cumulative progress
`min(groupIndex * 3 * batchSize + group.length * batchSize, tokens.length)`
is reported, with a 200 ms pause between groups — and finally the chain
entry is completed and `"processing-all"` is bumped.
(`batchGroups.indexOf(batchGroup)` resolves to the iteration index because
`chunk` allocates a fresh array per group, so reference equality identifies
each group uniquely; the embedding carries the index in `ig.1`.)

`groupBody` is the body of the `for (const batchGroup of batchGroups)` loop
(lines 90-104): run the group's batches, report cumulative progress, pause
200 ms unless this is the last group. -/
def groupBody (fetch : Nat → List ERC20Token → Except String PriceMap)
    (store : Nat → List PriceRecord → Except String Unit)
    (chainId : Nat) (chainKey : String) (tokensLen numGroups : Nat)
    (ig : Nat × List (List ERC20Token)) : List Event :=
  (ig.2.map (fun batch => fetchAndStorePrices fetch store chainId batch)).flatten
    ++ [Event.trackerUpdate chainKey
          (min (ig.1 * 3 * 500 + ig.2.length * 500) tokensLen)]
    ++ (if ig.1 < numGroups - 1 then [Event.sleep 200] else [])

/-- The per-chain closure of `fetchDiscoveredTokens` (lines 77-108), built
from `groupBody`: empty token list → only bump `"processing-all"`;
otherwise start the per-chain entry, run every batch group in order,
complete the entry and bump `"processing-all"`. -/
def processChain (fetch : Nat → List ERC20Token → Except String PriceMap)
    (store : Nat → List PriceRecord → Except String Unit)
    (chainId : Nat) (tokens : List ERC20Token) : List Event :=
  if tokens.length = 0 then
    [Event.trackerIncrement "processing-all"]
  else
    let batches := chunk tokens 500
    let chainKey := "chain-" ++ toString chainId
    let batchGroups := chunk batches 3
    [Event.trackerStart chainKey "Fetching Prices" tokens.length (some chainId)]
      ++ (batchGroups.enum.map
            (groupBody fetch store chainId chainKey tokens.length batchGroups.length)).flatten
      ++ [Event.trackerComplete chainKey, Event.trackerIncrement "processing-all"]

/-- `PriceService.fetchDiscoveredTokens` (lines 66-118): discovery (which may
throw — the surrounding `try`/`catch` logs and returns), then the
`"processing-all"` tracker entry with total = number of chains, the
per-chain processing, and completion of the global entry. -/
def fetchDiscoveredTokens (fetch : Nat → List ERC20Token → Except String PriceMap)
    (store : Nat → List PriceRecord → Except String Unit)
    (discovered : Except String (List (Nat × List ERC20Token))) : List Event :=
  match discovered with
  | Except.error _ => [Event.logError "Error fetching discovered tokens:"]
  | Except.ok tokensByChain =>
      [Event.trackerStart "processing-all" "Processing Chains" tokensByChain.length none]
        ++ (tokensByChain.map (fun ct => processChain fetch store ct.1 ct.2)).flatten
        ++ [Event.trackerComplete "processing-all"]

/-- The cumulative progress values reported to the tracker by the group loop
of `fetchDiscoveredTokens` (lines 95-99), in order: one value per batch
group, `min(groupIndex * 3 * 500 + group.length * 500, tokens.length)`. -/
def reportedProgress (tokens : List ERC20Token) : List Nat :=
  (chunk (chunk tokens 500) 3).enum.map
    (fun ig => min (ig.1 * 3 * 500 + ig.2.length * 500) tokens.length)

/-- Number of tokens contained in batch group `j` (the sum of the lengths of
its batches). -/
def groupTokenCount (tokens : List ERC20Token) (j : Nat) : Nat :=
  ((((chunk tokens 500).drop (j * 3)).take 3).map List.length).sum

/-- Modelled from the spec: the state of one progress-tracker entry
(`src/utils/progressTracker` is not part of the repository snapshot; fields
`{label, total, processed, errors, chainId?, completedAt?}` per §3 of the
specification, with `completedAt` abstracted to a flag). -/
structure ProgressEntry where
  label : String
  total : Nat
  processed : Nat
  errors : Nat
  chainId : Option Nat
  completed : Bool
deriving DecidableEq, Repr

/-- Keyed tracker state (process-wide registry of entries). -/
abbrev Tracker := List (String × ProgressEntry)

/-- Look up a tracker entry by key. -/
def trackerGet (tr : Tracker) (k : String) : Option ProgressEntry :=
  (tr.find? (fun p => p.1 == k)).map Prod.snd

/-- Insert or replace a tracker entry. -/
def trackerSet (tr : Tracker) (k : String) (e : ProgressEntry) : Tracker :=
  if tr.any (fun p => p.1 == k) then
    tr.map (fun p => if p.1 == k then (k, e) else p)
  else
    tr ++ [(k, e)]

/-- Modelled from the spec: the effect of one observable event on the
tracker state (§4.3: `start` creates/resets, `update` takes the maximum
with the current processed value, `increment` adds one, `complete` freezes
the entry; fetch/store/log events do not touch the tracker). -/
def trackerStep (tr : Tracker) : Event → Tracker
  | Event.trackerStart key label total cid =>
      trackerSet tr key
        { label := label, total := total, processed := 0, errors := 0,
          chainId := cid, completed := false }
  | Event.trackerUpdate key v =>
      match trackerGet tr key with
      | some e =>
          if e.completed then tr
          else trackerSet tr key { e with processed := max e.processed v }
      | none => tr
  | Event.trackerIncrement key =>
      match trackerGet tr key with
      | some e =>
          if e.completed then tr
          else trackerSet tr key { e with processed := e.processed + 1 }
      | none => tr
  | Event.trackerComplete key =>
      match trackerGet tr key with
      | some e => trackerSet tr key { e with completed := true }
      | none => tr
  | _ => tr

/-- Run a trace of events against a tracker state. -/
def runTracker (tr : Tracker) (events : List Event) : Tracker :=
  events.foldl trackerStep tr

/-- Modelled from the spec: the `errors` aggregate of `getStats()` — the sum
of the error counters of all tracked entries. -/
def statsErrors (tr : Tracker) : Nat :=
  (tr.map (fun e => e.2.errors)).sum

/-- The per-tick rediscovery decision of `startPeriodicFetch` (line 128):
`Date.now() % 3600000 < intervalMs`. -/
def shouldRediscover (intervalMs nowMs : Nat) : Bool :=
  nowMs % 3600000 < intervalMs

/-- `PriceService.startPeriodicFetch` (lines 120-133) as the sequence of
`forceRefresh` flags passed to `fetchDiscoveredTokens`: one immediate call
with `true`, then one call per timer tick whose flag is computed from the
wall clock observed at that tick. -/
def startPeriodicFetchCalls (intervalMs : Nat) (tickTimes : List Nat) : List Bool :=
  true :: tickTimes.map (fun now => shouldRediscover intervalMs now)

/-- A heap of JS arrays of tokens, to make array aliasing and in-place
mutation observable: a reference is an index into the heap. -/
abbrev Heap := List (List ERC20Token)

/-- Dereference a heap cell. -/
def heapGet (h : Heap) (r : Nat) : List ERC20Token :=
  h[r]?.getD []

/-- Allocate a fresh array holding `v`; returns the new heap and the fresh
reference. -/
def heapAlloc (h : Heap) (v : List ERC20Token) : Heap × Nat :=
  (h ++ [v], h.length)

/-- `Array.prototype.push`: in-place append to the array behind `r`. -/
def heapPush (h : Heap) (r : Nat) (t : ERC20Token) : Heap :=
  h.enum.map (fun iv => if iv.1 = r then iv.2 ++ [t] else iv.2)

/-- Lines 15-34 of `fetchAndStorePrices` with array mutation explicit:
`const tokensWithNative = [...tokens]` allocates a fresh array copying the
caller's, and the synthetic wrapped-native token is `push`ed onto that fresh
array only.  Returns the heap after the statement and the reference passed
on to the fetcher. -/
def fetchAndStorePricesTokensArray (h : Heap) (tokensRef : Nat) (chainId : Nat) :
    Heap × Nat :=
  let alloc := heapAlloc h (heapGet h tokensRef)
  let h1 := alloc.1
  let r1 := alloc.2
  if isRegistered chainId then
    match wethAddresses chainId with
    | some wethAddress =>
        if (heapGet h1 r1).any (fun t => lower t.address == wethAddress) then (h1, r1)
        else (heapPush h1 r1 (wethToken wethAddress chainId), r1)
    | none => (h1, r1)
  else (h1, r1)

/-- Selects a `trackerUpdate` event carrying the given chain's key. -/
def updOf (chainId : Nat) (e : Event) : Option Nat :=
  match e with
  | Event.trackerUpdate key v =>
      if key = "chain-" ++ toString chainId then some v else none
  | _ => none

/-- The progress values reported for a chain: the `trackerUpdate` events of
a trace that carry this chain's key, in order. -/
def chainUpdates (chainId : Nat) (events : List Event) : List Nat :=
  events.filterMap (updOf chainId)

/-- Selects a `fetchCall` event. -/
def fetchCallOf (e : Event) : Option (Nat × List ERC20Token) :=
  match e with
  | Event.fetchCall c ts => some (c, ts)
  | _ => none

/-- The fetcher invocations of a trace: chain id and token list of every
`fetchCall` event, in order. -/
def fetchCalls (events : List Event) : List (Nat × List ERC20Token) :=
  events.filterMap fetchCallOf

/-- A fetcher that always throws, for exercising the failure path. -/
def failingFetch : Nat → List ERC20Token → Except String PriceMap :=
  fun _ _ => Except.error "fetch failed"

/-- A storage backend that always succeeds. -/
def okStore : Nat → List PriceRecord → Except String Unit :=
  fun _ _ => Except.ok ()

/-- A fetcher that resolves no price at all. -/
def emptyFetch : Nat → List ERC20Token → Except String PriceMap :=
  fun _ _ => Except.ok []

/-- A concrete mainnet token (an arbitrary non-wrapped-native address). -/
def sampleToken : ERC20Token :=
  { address := "0x6b175474e89094c44da98b954eedeac495271d0f"
    name := "Dai Stablecoin"
    symbol := "DAI"
    decimals := 18
    chainId := 1 }

/-- A concrete zero-address record as a fetcher could return it directly. -/
def zeroRecordFromFetcher : PriceRecord :=
  { address := ZERO_ADDRESS, price := 1, chainId := 1 }

/-- A concrete wrapped-native (mainnet WETH) price record with a price that
differs from `zeroRecordFromFetcher`'s. -/
def wethRecord : PriceRecord :=
  { address := "0xc02aaa39b223fe8d0a0e5c4f27ead9083c756cc2", price := 2, chainId := 1 }

/-- A fetched price map that already contains a zero-address record next to
the wrapped-native record. -/
def mapWithZeroRecord : PriceMap :=
  [(ZERO_ADDRESS, zeroRecordFromFetcher),
   ("0xc02aaa39b223fe8d0a0e5c4f27ead9083c756cc2", wethRecord)]

/-- A fetcher that returns exactly one record, for mainnet WETH. -/
def wethOnlyFetch : Nat → List ERC20Token → Except String PriceMap :=
  fun _ _ => Except.ok [("0xc02aaa39b223fe8d0a0e5c4f27ead9083c756cc2", wethRecord)]

/-! ## Structural lemmas about `chunk` -/

theorem chunk_length (l : List α) (n : Nat) :
    0 < n → (chunk l n).length = (l.length + n - 1) / n := by
  induction l, n using chunk.induct with
  | case1 l => omega
  | case2 l n h1 h2 =>
      intro hn
      have hl : l = [] := by simpa [List.isEmpty_iff] using h2
      subst hl
      rw [chunk]
      simp [h1]
      exact (Nat.div_eq_of_lt (by omega)).symm
  | case3 l n h1 h2 ih =>
      intro hn
      have hl : l ≠ [] := by simpa [List.isEmpty_iff] using h2
      have hpos : 0 < l.length := List.length_pos.mpr hl
      rw [chunk, if_neg h1, if_neg h2, List.length_cons, ih hn]
      simp only [List.length_drop]
      rcases Nat.lt_or_ge l.length n with hlt | hge
      · have h0 : l.length - n = 0 := by omega
        rw [h0]
        have e1 : (0 + n - 1) / n = 0 := Nat.div_eq_of_lt (by omega)
        have e2 : (l.length + n - 1) / n = 1 :=
          Nat.div_eq_of_lt_le (by omega) (by omega)
        omega
      · have e1 : l.length - n + n - 1 = l.length - 1 := by omega
        have e2 : l.length + n - 1 = (l.length - 1) + n := by omega
        rw [e1, e2, Nat.add_div_right _ hn]

theorem chunk_getElem? (l : List α) (n : Nat) :
    ∀ i, 0 < n → i * n < l.length →
      (chunk l n)[i]? = some ((l.drop (i * n)).take n) := by
  induction l, n using chunk.induct with
  | case1 l => omega
  | case2 l n h1 h2 =>
      intro i hn hi
      have hl : l = [] := by simpa [List.isEmpty_iff] using h2
      subst hl
      simp at hi
  | case3 l n h1 h2 ih =>
      intro i hn hi
      rw [chunk, if_neg h1, if_neg h2]
      cases i with
      | zero => simp
      | succ j =>
          have hj : j * n < (List.drop n l).length := by
            simp only [List.length_drop]
            have : (j + 1) * n = j * n + n := Nat.succ_mul j n
            omega
          have hih := ih j hn hj
          simp only [List.getElem?_cons_succ]
          rw [hih, List.drop_drop]
          have e : n + j * n = (j + 1) * n := by rw [Nat.succ_mul]; omega
          rw [e]

theorem chunk_flatten (l : List α) (n : Nat) :
    0 < n → (chunk l n).flatten = l := by
  induction l, n using chunk.induct with
  | case1 l => omega
  | case2 l n h1 h2 =>
      intro hn
      have hl : l = [] := by simpa [List.isEmpty_iff] using h2
      subst hl
      rw [chunk]
      simp [h1]
  | case3 l n h1 h2 ih =>
      intro hn
      rw [chunk, if_neg h1, if_neg h2]
      simp only [List.flatten_cons, ih hn, List.take_append_drop]

theorem chunk_mem (l : List α) (n : Nat) :
    ∀ x, 0 < n → x ∈ chunk l n → x ≠ [] ∧ x.length ≤ n := by
  induction l, n using chunk.induct with
  | case1 l => omega
  | case2 l n h1 h2 =>
      intro x hn hx
      rw [chunk, if_neg h1] at hx
      simp [h2] at hx
  | case3 l n h1 h2 ih =>
      intro x hn hx
      have hl : l ≠ [] := by simpa [List.isEmpty_iff] using h2
      rw [chunk, if_neg h1, if_neg h2] at hx
      rcases List.mem_cons.mp hx with h | h
      · subst h
        constructor
        · simp [List.take_eq_nil_iff, hl]
          omega
        · simp [List.length_take]
      · exact ih x hn h

theorem chunk_sum_take (l : List α) (n : Nat) :
    ∀ k, 0 < n → ((((chunk l n).take k).map List.length).sum) = min (k * n) l.length := by
  induction l, n using chunk.induct with
  | case1 l => omega
  | case2 l n h1 h2 =>
      intro k hn
      have hl : l = [] := by simpa [List.isEmpty_iff] using h2
      subst hl
      rw [chunk]
      simp [h1]
  | case3 l n h1 h2 ih =>
      intro k hn
      have hl : l ≠ [] := by simpa [List.isEmpty_iff] using h2
      have hpos : 0 < l.length := List.length_pos.mpr hl
      rw [chunk, if_neg h1, if_neg h2]
      cases k with
      | zero => simp
      | succ j =>
          simp only [List.take_succ_cons, List.map_cons, List.sum_cons, ih j hn,
            List.length_take, List.length_drop, Nat.succ_mul]
          omega

/-! ## Lemmas about the JS-map embedding -/

theorem mapGet_mapReplace (m : PriceMap) (k : String) (v : PriceRecord)
    (h : m.any (fun p => p.1 == k) = true) :
    mapGet (m.map (fun p => if p.1 == k then (k, v) else p)) k = some v := by
  induction m with
  | nil => simp at h
  | cons a as ih =>
      by_cases hak : a.1 = k
      · simp [mapGet, hak]
      · have hb : (a.1 == k) = false := beq_false_of_ne hak
        simp only [List.any_cons, hb, Bool.false_or] at h
        simp only [List.map_cons, hb, Bool.false_eq_true, ite_false]
        unfold mapGet
        rw [List.find?_cons_of_neg _ (by simp [hb])]
        exact ih h

theorem mapGet_append_missing (m : PriceMap) (k : String) (v : PriceRecord)
    (h : m.any (fun p => p.1 == k) = false) :
    mapGet (m ++ [(k, v)]) k = some v := by
  unfold mapGet
  rw [List.find?_append]
  have hnone : m.find? (fun p => p.1 == k) = none := by
    rw [List.find?_eq_none]
    intro p hp hpk
    have hany : m.any (fun p => p.1 == k) = true :=
      List.any_eq_true.mpr ⟨p, hp, hpk⟩
    rw [h] at hany
    exact Bool.false_ne_true hany
  rw [hnone]
  simp

theorem mapGet_mapSet_self (m : PriceMap) (k : String) (v : PriceRecord) :
    mapGet (mapSet m k v) k = some v := by
  unfold mapSet
  split
  · exact mapGet_mapReplace m k v (by assumption)
  · rename_i h
    exact mapGet_append_missing m k v (Bool.eq_false_iff.mpr h)

theorem mapSet_ne_nil (m : PriceMap) (k : String) (v : PriceRecord) :
    mapSet m k v ≠ [] := by
  unfold mapSet
  split
  · rename_i h
    cases m with
    | nil => simp at h
    | cons a as => simp
  · simp

theorem mem_mapValues_of_mapGet (m : PriceMap) (k : String) (v : PriceRecord)
    (h : mapGet m k = some v) : v ∈ mapValues m := by
  unfold mapGet at h
  rcases Option.map_eq_some'.mp h with ⟨p, hp, hpv⟩
  have hm := List.mem_of_find?_eq_some hp
  subst hpv
  exact List.mem_map_of_mem Prod.snd hm

/-! ## Lemmas about the wrapped-native registry -/

theorem isRegistered_of_wethAddresses (chainId : Nat) (W : String)
    (h : wethAddresses chainId = some W) : isRegistered chainId = true := by
  unfold wethAddresses at h
  by_cases h1 : chainId = 1
  · simp [isRegistered, h1]
  · by_cases h2 : chainId = 10
    · simp [isRegistered, h2]
    · by_cases h3 : chainId = 42161
      · simp [isRegistered, h3]
      · by_cases h4 : chainId = 8453
        · simp [isRegistered, h4]
        · simp [h1, h2, h3, h4] at h

theorem lower_wethAddresses (chainId : Nat) (W : String)
    (h : wethAddresses chainId = some W) : lower W = W := by
  unfold wethAddresses at h
  split at h
  · cases h; decide
  · split at h
    · cases h; decide
    · split at h
      · cases h; decide
      · split at h
        · cases h; decide
        · cases h

/-- For a registered chain, `applyNativeAlias` with a wrapped-native record
present sets the zero-address record to the spread copy. -/
theorem applyNativeAlias_of_some (chainId : Nat) (W : String) (prices : PriceMap)
    (p : PriceRecord) (hW : wethAddresses chainId = some W)
    (hp : mapGet prices W = some p) :
    applyNativeAlias chainId prices
      = mapSet prices ZERO_ADDRESS { p with address := ZERO_ADDRESS } := by
  unfold applyNativeAlias
  rw [if_pos (isRegistered_of_wethAddresses chainId W hW)]
  simp only [hW, hp]

/-- For a registered chain without a wrapped-native record, `applyNativeAlias`
returns the map unchanged. -/
theorem applyNativeAlias_of_none (chainId : Nat) (prices : PriceMap)
    (h : ∀ W, wethAddresses chainId = some W → mapGet prices W = none) :
    applyNativeAlias chainId prices = prices := by
  unfold applyNativeAlias
  split
  · cases hW : wethAddresses chainId with
    | none => simp only [hW]
    | some W => simp only [hW, h W hW]
  · rfl

/-! ## Lemmas about one batch's fetch-and-store cycle -/

theorem fetchCall_mem_fetchAndStorePrices
    (fetch : Nat → List ERC20Token → Except String PriceMap)
    (store : Nat → List PriceRecord → Except String Unit)
    (chainId : Nat) (tokens : List ERC20Token) :
    Event.fetchCall chainId (tokensWithNative chainId tokens)
      ∈ fetchAndStorePrices fetch store chainId tokens := by
  simp only [fetchAndStorePrices]
  rcases hfetch : fetch chainId (tokensWithNative chainId tokens) with e | prices
  · simp
  · simp only []
    split
    · rcases hstore : store chainId (mapValues (applyNativeAlias chainId prices)) with
        e2 | u <;> simp
    · simp

theorem runTracker_fetchAndStorePrices
    (fetch : Nat → List ERC20Token → Except String PriceMap)
    (store : Nat → List PriceRecord → Except String Unit)
    (chainId : Nat) (tokens : List ERC20Token) (tr : Tracker) :
    runTracker tr (fetchAndStorePrices fetch store chainId tokens) = tr := by
  simp only [fetchAndStorePrices]
  rcases hfetch : fetch chainId (tokensWithNative chainId tokens) with e | prices
  · simp [runTracker, trackerStep]
  · simp only []
    split
    · rcases hstore : store chainId (mapValues (applyNativeAlias chainId prices)) with
        e2 | u <;> simp [runTracker, trackerStep]
    · simp [runTracker, trackerStep]

theorem chainUpdates_fetchAndStorePrices
    (fetch : Nat → List ERC20Token → Except String PriceMap)
    (store : Nat → List PriceRecord → Except String Unit)
    (c chainId : Nat) (tokens : List ERC20Token) :
    chainUpdates c (fetchAndStorePrices fetch store chainId tokens) = [] := by
  simp only [fetchAndStorePrices]
  rcases hfetch : fetch chainId (tokensWithNative chainId tokens) with e | prices
  · simp [chainUpdates, updOf]
  · simp only []
    split
    · rcases hstore : store chainId (mapValues (applyNativeAlias chainId prices)) with
        e2 | u <;> simp [chainUpdates, updOf]
    · simp [chainUpdates, updOf]

theorem storeCall_mem_fetchAndStorePrices
    (fetch : Nat → List ERC20Token → Except String PriceMap)
    (store : Nat → List PriceRecord → Except String Unit)
    (chainId : Nat) (tokens : List ERC20Token) (c : Nat) (arr : List PriceRecord)
    (h : Event.storeCall c arr ∈ fetchAndStorePrices fetch store chainId tokens) :
    ∃ prices, fetch chainId (tokensWithNative chainId tokens) = Except.ok prices
      ∧ arr = mapValues (applyNativeAlias chainId prices)
      ∧ 0 < arr.length ∧ c = chainId := by
  simp only [fetchAndStorePrices] at h
  rcases hf : fetch chainId (tokensWithNative chainId tokens) with e | prices
  · rw [hf] at h
    simp at h
  · rw [hf] at h
    simp only [] at h
    refine ⟨prices, rfl, ?_⟩
    split at h
    · rename_i hlen
      rcases hstore : store chainId (mapValues (applyNativeAlias chainId prices)) with
        e2 | u
      · rw [hstore] at h
        simp at h
        obtain ⟨hc, harr⟩ := h
        subst hc; subst harr
        exact ⟨rfl, hlen, rfl⟩
      · rw [hstore] at h
        simp at h
        obtain ⟨hc, harr⟩ := h
        subst hc; subst harr
        exact ⟨rfl, hlen, rfl⟩
    · simp at h

/-! ## General list helpers -/

theorem filterMap_flatten (f : α → Option β) (L : List (List α)) :
    L.flatten.filterMap f = (L.map (List.filterMap f)).flatten := by
  induction L with
  | nil => rfl
  | cons a as ih => simp [List.filterMap_append, ih]

theorem flatten_map_singleton (f : α → β) (L : List α) :
    (L.map (fun x => [f x])).flatten = L.map f := by
  induction L with
  | nil => rfl
  | cons a as ih => simp [ih]

/-! ## The reported-progress sequence of the group loop -/

theorem reportedProgress_length (tokens : List ERC20Token) :
    (reportedProgress tokens).length = ((chunk tokens 500).length + 2) / 3 := by
  unfold reportedProgress
  rw [List.length_map, List.enum_length, chunk_length _ 3 (by omega)]
  omega

theorem reportedProgress_getElem? (tokens : List ERC20Token) (j : Nat)
    (hj : j < (reportedProgress tokens).length) :
    (reportedProgress tokens)[j]? = some (min (j * 1500 + 1500) tokens.length) := by
  have hM : (chunk tokens 500).length = (tokens.length + 500 - 1) / 500 :=
    chunk_length tokens 500 (by omega)
  have hlen := reportedProgress_length tokens
  have h3j : j * 3 < (chunk tokens 500).length := by
    rw [hlen] at hj
    omega
  have hg := chunk_getElem? (chunk tokens 500) 3 j (by omega) h3j
  unfold reportedProgress
  rw [List.getElem?_map, List.getElem?_enum, hg]
  simp only [Option.map_some']
  have hglen : (((chunk tokens 500).drop (j * 3)).take 3).length
      = min 3 ((chunk tokens 500).length - j * 3) := by
    simp [List.length_take, List.length_drop]
  rw [Option.some_inj, hglen]
  omega

theorem groupTokenCount_eq (tokens : List ERC20Token) (j : Nat) :
    groupTokenCount tokens j
      = min ((j * 3 + 3) * 500) tokens.length - min (j * 3 * 500) tokens.length := by
  unfold groupTokenCount
  have ht : (chunk tokens 500).take (j * 3 + 3)
      = (chunk tokens 500).take (j * 3) ++ ((chunk tokens 500).drop (j * 3)).take 3 :=
    List.take_add _ _ _
  have h1 := chunk_sum_take tokens 500 (j * 3 + 3) (by omega)
  have h2 := chunk_sum_take tokens 500 (j * 3) (by omega)
  rw [ht] at h1
  rw [List.map_append, List.sum_append] at h1
  omega

theorem chainUpdates_groupBody
    (fetch : Nat → List ERC20Token → Except String PriceMap)
    (store : Nat → List PriceRecord → Except String Unit)
    (chainId tokensLen numGroups : Nat) (ig : Nat × List (List ERC20Token)) :
    chainUpdates chainId
        (groupBody fetch store chainId ("chain-" ++ toString chainId) tokensLen numGroups ig)
      = [min (ig.1 * 3 * 500 + ig.2.length * 500) tokensLen] := by
  unfold groupBody chainUpdates
  rw [List.filterMap_append, List.filterMap_append]
  have hbatches : (ig.2.map
      (fun batch => fetchAndStorePrices fetch store chainId batch)).flatten.filterMap
        (updOf chainId) = [] := by
    rw [filterMap_flatten, List.flatten_eq_nil_iff]
    intro l hl
    rcases List.mem_map.mp hl with ⟨x, hx, hxl⟩
    rcases List.mem_map.mp hx with ⟨b, hb, hbx⟩
    subst hxl
    subst hbx
    exact chainUpdates_fetchAndStorePrices fetch store chainId chainId b
  have hupd : List.filterMap (updOf chainId)
      [Event.trackerUpdate ("chain-" ++ toString chainId)
        (min (ig.1 * 3 * 500 + ig.2.length * 500) tokensLen)]
      = [min (ig.1 * 3 * 500 + ig.2.length * 500) tokensLen] := by
    simp [updOf]
  have hsleep : (if ig.1 < numGroups - 1 then [Event.sleep 200] else []).filterMap
      (updOf chainId) = [] := by
    split <;> simp [updOf]
  rw [hbatches, hupd, hsleep]
  simp

theorem chainUpdates_processChain
    (fetch : Nat → List ERC20Token → Except String PriceMap)
    (store : Nat → List PriceRecord → Except String Unit)
    (chainId : Nat) (tokens : List ERC20Token) (h : tokens ≠ []) :
    chainUpdates chainId (processChain fetch store chainId tokens)
      = reportedProgress tokens := by
  unfold processChain
  rw [if_neg (by simpa using h)]
  unfold chainUpdates
  rw [List.filterMap_append, List.filterMap_append]
  have hstart : List.filterMap (updOf chainId)
      [Event.trackerStart ("chain-" ++ toString chainId) "Fetching Prices"
        tokens.length (some chainId)] = [] := by
    simp [updOf]
  have htail : List.filterMap (updOf chainId)
      [Event.trackerComplete ("chain-" ++ toString chainId),
       Event.trackerIncrement "processing-all"] = [] := by
    simp [updOf]
  rw [hstart, htail]
  simp only [List.nil_append, List.append_nil]
  rw [filterMap_flatten, List.map_map]
  have hbody : ((chunk (chunk tokens 500) 3).enum.map
      (List.filterMap (updOf chainId) ∘
        groupBody fetch store chainId ("chain-" ++ toString chainId) tokens.length
          (chunk (chunk tokens 500) 3).length))
      = (chunk (chunk tokens 500) 3).enum.map
          (fun ig => [min (ig.1 * 3 * 500 + ig.2.length * 500) tokens.length]) := by
    apply List.map_congr_left
    intro ig _
    exact chainUpdates_groupBody fetch store chainId tokens.length
      (chunk (chunk tokens 500) 3).length ig
  rw [hbody, flatten_map_singleton]
  simp [reportedProgress]

/-! ## The tracker never accumulates errors  -/

theorem mem_trackerSet (tr : Tracker) (k : String) (v : ProgressEntry)
    (p : String × ProgressEntry) (hp : p ∈ trackerSet tr k v) :
    p = (k, v) ∨ p ∈ tr := by
  unfold trackerSet at hp
  split at hp
  · rcases List.mem_map.mp hp with ⟨q, hq, hpq⟩
    by_cases hqk : q.1 = k
    · left
      rw [← hpq]
      simp [hqk]
    · right
      rw [← hpq]
      simpa [beq_false_of_ne hqk] using hq
  · rcases List.mem_append.mp hp with hmem | hmem
    · right; exact hmem
    · left; simpa using hmem

theorem trackerGet_mem (tr : Tracker) (k : String) (e : ProgressEntry)
    (h : trackerGet tr k = some e) : ∃ k', (k', e) ∈ tr := by
  unfold trackerGet at h
  rcases Option.map_eq_some'.mp h with ⟨q, hq, hqe⟩
  refine ⟨q.1, ?_⟩
  rw [← hqe]
  exact List.mem_of_find?_eq_some hq

theorem errors_zero_trackerStep (tr : Tracker) (e : Event)
    (h : ∀ p ∈ tr, p.2.errors = 0) : ∀ p ∈ trackerStep tr e, p.2.errors = 0 := by
  intro p hp
  cases e with
  | trackerStart key label total cid =>
      unfold trackerStep at hp
      simp only [] at hp
      rcases mem_trackerSet _ _ _ _ hp with hset | hold
      · rw [hset]
      · exact h p hold
  | trackerUpdate key v =>
      unfold trackerStep at hp
      simp only [] at hp
      cases hg : trackerGet tr key with
      | none => rw [hg] at hp; simp only [] at hp; exact h p hp
      | some entry =>
          rw [hg] at hp
          simp only [] at hp
          by_cases hc : entry.completed
          · rw [if_pos hc] at hp; exact h p hp
          · rw [if_neg hc] at hp
            rcases mem_trackerSet _ _ _ _ hp with hset | hold
            · rw [hset]
              rcases trackerGet_mem tr key entry hg with ⟨k', hk'⟩
              exact h (k', entry) hk'
            · exact h p hold
  | trackerIncrement key =>
      unfold trackerStep at hp
      simp only [] at hp
      cases hg : trackerGet tr key with
      | none => rw [hg] at hp; simp only [] at hp; exact h p hp
      | some entry =>
          rw [hg] at hp
          simp only [] at hp
          by_cases hc : entry.completed
          · rw [if_pos hc] at hp; exact h p hp
          · rw [if_neg hc] at hp
            rcases mem_trackerSet _ _ _ _ hp with hset | hold
            · rw [hset]
              rcases trackerGet_mem tr key entry hg with ⟨k', hk'⟩
              exact h (k', entry) hk'
            · exact h p hold
  | trackerComplete key =>
      unfold trackerStep at hp
      simp only [] at hp
      cases hg : trackerGet tr key with
      | none => rw [hg] at hp; simp only [] at hp; exact h p hp
      | some entry =>
          rw [hg] at hp
          simp only [] at hp
          rcases mem_trackerSet _ _ _ _ hp with hset | hold
          · rw [hset]
            rcases trackerGet_mem tr key entry hg with ⟨k', hk'⟩
            exact h (k', entry) hk'
          · exact h p hold
  | fetchCall c ts => unfold trackerStep at hp; simp only [] at hp; exact h p hp
  | storeCall c rs => unfold trackerStep at hp; simp only [] at hp; exact h p hp
  | logError m => unfold trackerStep at hp; simp only [] at hp; exact h p hp
  | sleep ms => unfold trackerStep at hp; simp only [] at hp; exact h p hp

theorem errors_zero_runTracker (evs : List Event) :
    ∀ tr : Tracker, (∀ p ∈ tr, p.2.errors = 0) →
      ∀ p ∈ runTracker tr evs, p.2.errors = 0 := by
  induction evs with
  | nil => intro tr h p hp; exact h p hp
  | cons e es ih =>
      intro tr h p hp
      exact ih (trackerStep tr e) (errors_zero_trackerStep tr e h) p hp

theorem statsErrors_runTracker_zero (tr : Tracker) (evs : List Event)
    (h : ∀ p ∈ tr, p.2.errors = 0) : statsErrors (runTracker tr evs) = 0 := by
  unfold statsErrors
  rw [List.sum_eq_zero_iff]
  intro n hn
  rcases List.mem_map.mp hn with ⟨p, hp, hpn⟩
  rw [← hpn]
  simp [errors_zero_runTracker evs tr h p hp]

/-! ## Shape of a batch trace and its fetch calls -/

theorem fetchAndStorePrices_events
    (fetch : Nat → List ERC20Token → Except String PriceMap)
    (store : Nat → List PriceRecord → Except String Unit)
    (chainId : Nat) (tokens : List ERC20Token) :
    ∀ e ∈ fetchAndStorePrices fetch store chainId tokens,
      (∃ c ts, e = Event.fetchCall c ts) ∨ (∃ c rs, e = Event.storeCall c rs)
        ∨ (∃ m, e = Event.logError m) := by
  intro e he
  simp only [fetchAndStorePrices] at he
  rcases hfetch : fetch chainId (tokensWithNative chainId tokens) with e2 | prices
  · rw [hfetch] at he
    simp at he
    rcases he with he | he <;> subst he
    · left; exact ⟨_, _, rfl⟩
    · right; right; exact ⟨_, rfl⟩
  · rw [hfetch] at he
    simp only [] at he
    split at he
    · rcases hstore : store chainId (mapValues (applyNativeAlias chainId prices)) with
        e3 | u <;> rw [hstore] at he <;> simp at he
      · rcases he with he | he | he <;> subst he
        · left; exact ⟨_, _, rfl⟩
        · right; left; exact ⟨_, _, rfl⟩
        · right; right; exact ⟨_, rfl⟩
      · rcases he with he | he <;> subst he
        · left; exact ⟨_, _, rfl⟩
        · right; left; exact ⟨_, _, rfl⟩
    · simp at he
      subst he
      left; exact ⟨_, _, rfl⟩

theorem fetchCalls_fetchAndStorePrices
    (fetch : Nat → List ERC20Token → Except String PriceMap)
    (store : Nat → List PriceRecord → Except String Unit)
    (chainId : Nat) (tokens : List ERC20Token) :
    fetchCalls (fetchAndStorePrices fetch store chainId tokens)
      = [(chainId, tokensWithNative chainId tokens)] := by
  simp only [fetchAndStorePrices]
  rcases hfetch : fetch chainId (tokensWithNative chainId tokens) with e | prices
  · simp [fetchCalls, fetchCallOf]
  · simp only []
    split
    · rcases hstore : store chainId (mapValues (applyNativeAlias chainId prices)) with
        e2 | u <;> simp [fetchCalls, fetchCallOf]
    · simp [fetchCalls, fetchCallOf]

theorem fetchCalls_groupBody
    (fetch : Nat → List ERC20Token → Except String PriceMap)
    (store : Nat → List PriceRecord → Except String Unit)
    (chainId tokensLen numGroups : Nat) (chainKey : String)
    (ig : Nat × List (List ERC20Token)) :
    fetchCalls (groupBody fetch store chainId chainKey tokensLen numGroups ig)
      = ig.2.map (fun b => (chainId, tokensWithNative chainId b)) := by
  unfold groupBody fetchCalls
  rw [List.filterMap_append, List.filterMap_append]
  have h2 : List.filterMap fetchCallOf
      [Event.trackerUpdate chainKey
        (min (ig.1 * 3 * 500 + ig.2.length * 500) tokensLen)] = [] := by
    simp [fetchCallOf]
  have h3 : (if ig.1 < numGroups - 1 then [Event.sleep 200] else []).filterMap
      fetchCallOf = [] := by
    split <;> simp [fetchCallOf]
  rw [h2, h3, List.append_nil, List.append_nil]
  rw [filterMap_flatten, List.map_map]
  have hbody : ig.2.map (List.filterMap fetchCallOf ∘
      (fun batch => fetchAndStorePrices fetch store chainId batch))
      = ig.2.map (fun b => [(chainId, tokensWithNative chainId b)]) := by
    apply List.map_congr_left
    intro b _
    exact fetchCalls_fetchAndStorePrices fetch store chainId b
  rw [hbody, flatten_map_singleton]

/-! ## Heap lemmas for the array-mutation model -/

theorem heapGet_append (h : Heap) (v : List ERC20Token) (r : Nat)
    (hr : r < h.length) : heapGet (h ++ [v]) r = heapGet h r := by
  unfold heapGet
  rw [List.getElem?_append_left hr]

theorem heapGet_fresh (h : Heap) (v : List ERC20Token) :
    heapGet (h ++ [v]) h.length = v := by
  unfold heapGet
  rw [List.getElem?_append_right (Nat.le_refl _)]
  simp

theorem heapGet_heapPush_ne (h : Heap) (r' r : Nat) (t : ERC20Token)
    (hne : r ≠ r') : heapGet (heapPush h r' t) r = heapGet h r := by
  unfold heapPush heapGet
  rw [List.getElem?_map, List.getElem?_enum]
  cases hr : h[r]? with
  | none => simp
  | some v => simp [hne]

theorem heapGet_heapPush_self (h : Heap) (r : Nat) (t : ERC20Token)
    (hr : r < h.length) : heapGet (heapPush h r t) r = heapGet h r ++ [t] := by
  unfold heapPush heapGet
  rw [List.getElem?_map, List.getElem?_enum]
  cases hv : h[r]? with
  | none =>
      have := List.getElem?_eq_none_iff.mp hv
      omega
  | some v => simp

theorem getElem?_of_mem' {a : α} {l : List α} (h : a ∈ l) :
    ∃ i : Nat, l[i]? = some a := by
  rcases List.getElem_of_mem h with ⟨i, hi, hgi⟩
  exact ⟨i, by rw [List.getElem?_eq_getElem hi, hgi]⟩

theorem enum_map_snd_comp (L : List α) (g : α → β) :
    L.enum.map (fun ig => g ig.2) = L.map g := by
  have h1 : (fun ig : Nat × α => g ig.2) = g ∘ Prod.snd := rfl
  rw [h1, ← List.map_map, List.enum_map_snd]

/-! ## Claim theorems -/

/-- C1: for every registered network (wrapped-native address `W`) and every
successful fetch, if the fetched map has a record `p` for `W` then the map
passed to storage contains a record for the zero address whose price is
`p.price` and whose address field is the zero address (and storage is indeed
invoked with that map); if the map has no record for `W`, the map is passed
on unchanged — no alias record is added. -/
theorem c1_native_alias (chainId : Nat) (W : String)
    (fetch : Nat → List ERC20Token → Except String PriceMap)
    (store : Nat → List PriceRecord → Except String Unit)
    (tokens : List ERC20Token) (prices : PriceMap)
    (hW : wethAddresses chainId = some W)
    (hfetch : fetch chainId (tokensWithNative chainId tokens) = Except.ok prices) :
    (∀ p, mapGet prices W = some p →
        mapGet (applyNativeAlias chainId prices) ZERO_ADDRESS
            = some { p with address := ZERO_ADDRESS }
      ∧ { p with address := ZERO_ADDRESS } ∈ mapValues (applyNativeAlias chainId prices)
      ∧ Event.storeCall chainId (mapValues (applyNativeAlias chainId prices))
          ∈ fetchAndStorePrices fetch store chainId tokens)
  ∧ (mapGet prices W = none → applyNativeAlias chainId prices = prices) := by
  constructor
  · intro p hp
    have halias := applyNativeAlias_of_some chainId W prices p hW hp
    have hzero : mapGet (applyNativeAlias chainId prices) ZERO_ADDRESS
        = some { p with address := ZERO_ADDRESS } := by
      rw [halias]
      exact mapGet_mapSet_self prices ZERO_ADDRESS { p with address := ZERO_ADDRESS }
    refine ⟨hzero, mem_mapValues_of_mapGet _ _ _ hzero, ?_⟩
    have hne : applyNativeAlias chainId prices ≠ [] := by
      rw [halias]
      exact mapSet_ne_nil prices ZERO_ADDRESS { p with address := ZERO_ADDRESS }
    have hlen : (mapValues (applyNativeAlias chainId prices)).length > 0 := by
      cases hmv : applyNativeAlias chainId prices with
      | nil => exact absurd hmv hne
      | cons a as => simp [mapValues, hmv]
    simp only [fetchAndStorePrices]
    rw [hfetch]
    simp only []
    rw [if_pos hlen]
    rcases store chainId (mapValues (applyNativeAlias chainId prices)) with e | u <;> simp
  · intro hnone
    apply applyNativeAlias_of_none
    intro W' hW'
    have hWW : W = W' := Option.some.inj (hW.symm.trans hW')
    rw [← hWW]
    exact hnone

/-- C1 witness: on mainnet with a fetched map holding only the WETH record,
the aliased map gains the zero-address copy. -/
theorem c1_native_alias_witness :
    mapGet (applyNativeAlias 1 [("0xc02aaa39b223fe8d0a0e5c4f27ead9083c756cc2", wethRecord)])
        ZERO_ADDRESS = some { wethRecord with address := ZERO_ADDRESS } :=
  ((c1_native_alias 1 "0xc02aaa39b223fe8d0a0e5c4f27ead9083c756cc2" wethOnlyFetch okStore
      [sampleToken] [("0xc02aaa39b223fe8d0a0e5c4f27ead9083c756cc2", wethRecord)]
      rfl rfl).1 wethRecord rfl).1

/-- C4 counterexample: a fetched map that already holds a zero-address
record (price 1) next to the WETH record (price 2); the aliasing step
overwrites it, so the zero-address record in the map passed to storage is
the alias copy, not the pre-existing record — the claim's "left unchanged"
fails. -/
theorem c4_counterexample :
    mapGet mapWithZeroRecord ZERO_ADDRESS = some zeroRecordFromFetcher
  ∧ mapGet mapWithZeroRecord "0xc02aaa39b223fe8d0a0e5c4f27ead9083c756cc2" = some wethRecord
  ∧ mapGet (applyNativeAlias 1 mapWithZeroRecord) ZERO_ADDRESS
      = some { wethRecord with address := ZERO_ADDRESS }
  ∧ { wethRecord with address := ZERO_ADDRESS } ≠ zeroRecordFromFetcher := by
  refine ⟨rfl, rfl, rfl, ?_⟩
  intro hcontra
  have : ({ wethRecord with address := ZERO_ADDRESS } : PriceRecord).price
      = zeroRecordFromFetcher.price := by rw [hcontra]
  simp [wethRecord, zeroRecordFromFetcher] at this

/-- C4 (amended): when a wrapped-native price exists, the aliasing step
always sets the zero-address key to the alias copy, overwriting any
pre-existing zero-address record returned by the fetcher. -/
theorem c4_alias_overwrites (chainId : Nat) (W : String) (prices : PriceMap)
    (p : PriceRecord) (hW : wethAddresses chainId = some W)
    (hp : mapGet prices W = some p) :
    mapGet (applyNativeAlias chainId prices) ZERO_ADDRESS
      = some { p with address := ZERO_ADDRESS } := by
  rw [applyNativeAlias_of_some chainId W prices p hW hp]
  exact mapGet_mapSet_self prices ZERO_ADDRESS { p with address := ZERO_ADDRESS }

/-- C4 witness: the amended claim at the concrete overwriting map. -/
theorem c4_alias_overwrites_witness :
    mapGet (applyNativeAlias 1 mapWithZeroRecord) ZERO_ADDRESS
      = some { wethRecord with address := ZERO_ADDRESS } :=
  c4_alias_overwrites 1 "0xc02aaa39b223fe8d0a0e5c4f27ead9083c756cc2"
    mapWithZeroRecord wethRecord rfl rfl

/-- C5: for a registered network, if no token's address is
case-insensitively equal to the wrapped-native address, the synthetic WETH
token (symbol WETH, decimals 18, that chain id) is appended at the end of
the list handed to the fetcher; if one is present, the list is passed
unchanged; unregistered networks always pass the list unchanged; and the
fetcher is invoked exactly on `tokensWithNative`. -/
theorem c5_synthetic_weth (chainId : Nat) (tokens : List ERC20Token) :
    (∀ W, wethAddresses chainId = some W →
        ((∀ t ∈ tokens, lower t.address ≠ lower W) →
            tokensWithNative chainId tokens = tokens ++ [wethToken W chainId])
      ∧ ((∃ t ∈ tokens, lower t.address = lower W) →
            tokensWithNative chainId tokens = tokens))
  ∧ (wethAddresses chainId = none → tokensWithNative chainId tokens = tokens)
  ∧ (∀ fetch store,
        Event.fetchCall chainId (tokensWithNative chainId tokens)
          ∈ fetchAndStorePrices fetch store chainId tokens) := by
  refine ⟨?_, ?_, ?_⟩
  · intro W hW
    have hreg := isRegistered_of_wethAddresses chainId W hW
    have hlW := lower_wethAddresses chainId W hW
    constructor
    · intro habs
      unfold tokensWithNative
      rw [if_pos hreg]
      simp only [hW]
      rw [if_neg]
      intro hany
      rcases List.any_eq_true.mp hany with ⟨t, ht, htW⟩
      exact habs t ht (by rw [hlW]; exact eq_of_beq htW)
    · rintro ⟨t, ht, htW⟩
      unfold tokensWithNative
      rw [if_pos hreg]
      simp only [hW]
      rw [if_pos]
      exact List.any_eq_true.mpr ⟨t, ht, beq_iff_eq.mpr (htW.trans hlW)⟩
  · intro hnone
    unfold tokensWithNative
    split
    · simp only [hnone]
    · rfl
  · intro fetch store
    exact fetchCall_mem_fetchAndStorePrices fetch store chainId tokens

/-- C5 witness: on mainnet with only a DAI token, the synthetic WETH token
is appended. -/
theorem c5_synthetic_weth_witness :
    tokensWithNative 1 [sampleToken]
      = [sampleToken] ++ [wethToken "0xc02aaa39b223fe8d0a0e5c4f27ead9083c756cc2" 1] :=
  ((c5_synthetic_weth 1 [sampleToken]).1
      "0xc02aaa39b223fe8d0a0e5c4f27ead9083c756cc2" rfl).1 (by decide)

/-- C9 (implicit): storage is invoked only with a non-empty price array; a
batch whose fetch succeeds with zero resulting records produces only the
fetch call — no store call and no error log. -/
theorem c9_store_only_nonempty
    (fetch : Nat → List ERC20Token → Except String PriceMap)
    (store : Nat → List PriceRecord → Except String Unit)
    (chainId : Nat) (tokens : List ERC20Token) :
    (∀ prices, fetch chainId (tokensWithNative chainId tokens) = Except.ok prices →
        mapValues (applyNativeAlias chainId prices) = [] →
        fetchAndStorePrices fetch store chainId tokens
          = [Event.fetchCall chainId (tokensWithNative chainId tokens)])
  ∧ (∀ c arr, Event.storeCall c arr ∈ fetchAndStorePrices fetch store chainId tokens →
        0 < arr.length) := by
  constructor
  · intro prices hf hempty
    simp only [fetchAndStorePrices]
    rw [hf]
    simp only []
    rw [if_neg]
    rw [hempty]
    simp
  · intro c arr hmem
    obtain ⟨prices, _, _, hlen, _⟩ :=
      storeCall_mem_fetchAndStorePrices fetch store chainId tokens c arr hmem
    exact hlen

/-- C9 witness: a fetcher that resolves nothing yields a trace with only
the fetch call. -/
theorem c9_store_only_nonempty_witness :
    fetchAndStorePrices emptyFetch okStore 1 [sampleToken]
      = [Event.fetchCall 1 (tokensWithNative 1 [sampleToken])] :=
  (c9_store_only_nonempty emptyFetch okStore 1 [sampleToken]).1 [] rfl rfl

/-- C6: splitting a token list of length `N` with batch size 500 yields
`ceil(N/500)` batches whose concatenation is the original list, every
non-final batch has size 500, the final batch has size `N mod 500` (or 500
when `N` is a positive multiple of 500), no batch is empty; grouping with
group size 3 yields `ceil(numBatches/3)` groups of at most 3 batches. -/
theorem c6_batch_shape (tokens : List ERC20Token) :
    (chunk tokens 500).length = (tokens.length + 500 - 1) / 500
  ∧ (chunk tokens 500).flatten = tokens
  ∧ (∀ i, i + 1 < (chunk tokens 500).length →
        ((chunk tokens 500).map List.length)[i]? = some 500)
  ∧ (tokens ≠ [] →
        ((chunk tokens 500).map List.length).getLast?
          = some (if tokens.length % 500 = 0 then 500 else tokens.length % 500))
  ∧ (∀ b ∈ chunk tokens 500, b ≠ [])
  ∧ (chunk (chunk tokens 500) 3).length = ((chunk tokens 500).length + 3 - 1) / 3
  ∧ (∀ g ∈ chunk (chunk tokens 500) 3, g.length ≤ 3) := by
  have hM := chunk_length tokens 500 (by omega)
  refine ⟨hM, chunk_flatten tokens 500 (by omega), ?_, ?_, ?_,
    chunk_length (chunk tokens 500) 3 (by omega), ?_⟩
  · intro i hi
    have hiN : i * 500 < tokens.length := by omega
    rw [List.getElem?_map, chunk_getElem? tokens 500 i (by omega) hiN]
    simp only [Option.map_some', List.length_take, List.length_drop]
    rw [Option.some_inj]
    omega
  · intro hne
    have hNpos : 0 < tokens.length := List.length_pos.mpr hne
    have hMpos : 0 < (chunk tokens 500).length := by omega
    have hiN : ((chunk tokens 500).length - 1) * 500 < tokens.length := by omega
    rw [List.getLast?_eq_getElem?, List.getElem?_map, List.length_map]
    rw [chunk_getElem? tokens 500 _ (by omega) hiN]
    simp only [Option.map_some', List.length_take, List.length_drop]
    rw [Option.some_inj]
    by_cases hmod : tokens.length % 500 = 0
    · rw [if_pos hmod]
      omega
    · rw [if_neg hmod]
      omega
  · intro b hb
    exact (chunk_mem tokens 500 b (by omega) hb).1
  · intro g hg
    exact (chunk_mem (chunk tokens 500) 3 g (by omega) hg).2

/-- C6 witness: one token yields one batch of length 1 and one group. -/
theorem c6_batch_shape_witness :
    ((chunk [sampleToken] 500).map List.length).getLast? = some 1 := by
  have h := (c6_batch_shape [sampleToken]).2.2.2.1 (by simp)
  simpa using h

/-- C7: the sequence of `forceRefresh` flags produced by
`startPeriodicFetch` starts with an immediate `true`, and the flag of the
tick observed at wall-clock time `now` is `true` exactly when
`now mod 3600000 < intervalMs`. -/
theorem c7_scheduler_flags (intervalMs : Nat) (tickTimes : List Nat) :
    (startPeriodicFetchCalls intervalMs tickTimes)[0]? = some true
  ∧ (∀ i, (startPeriodicFetchCalls intervalMs tickTimes)[i + 1]?
        = tickTimes[i]?.map (fun now => shouldRediscover intervalMs now))
  ∧ (∀ i now, tickTimes[i]? = some now →
        ((startPeriodicFetchCalls intervalMs tickTimes)[i + 1]? = some true
          ↔ now % 3600000 < intervalMs)) := by
  refine ⟨by simp [startPeriodicFetchCalls], ?_, ?_⟩
  · intro i
    simp [startPeriodicFetchCalls, List.getElem?_map]
  · intro i now hnow
    simp [startPeriodicFetchCalls, List.getElem?_map, hnow, shouldRediscover]

/-- C7 witness: a tick at 1000 ms into the hour with a 60000 ms interval
forces rediscovery. -/
theorem c7_scheduler_flags_witness :
    (startPeriodicFetchCalls 60000 [1000])[0 + 1]? = some true ↔ 1000 % 3600000 < 60000 :=
  (c7_scheduler_flags 60000 [1000]).2.2 0 1000 rfl

/-- C10 (implicit): `fetchAndStorePrices` never mutates the caller's token
array: the spread copies it into a fresh array and the synthetic token is
pushed onto the copy only, so the caller's array is unchanged and the array
handed to the fetcher holds `tokensWithNative` of the original contents. -/
theorem c10_no_input_mutation (h : Heap) (tokensRef : Nat) (chainId : Nat)
    (href : tokensRef < h.length) :
    heapGet (fetchAndStorePricesTokensArray h tokensRef chainId).1 tokensRef
        = heapGet h tokensRef
  ∧ (fetchAndStorePricesTokensArray h tokensRef chainId).2 ≠ tokensRef
  ∧ heapGet (fetchAndStorePricesTokensArray h tokensRef chainId).1
        (fetchAndStorePricesTokensArray h tokensRef chainId).2
      = tokensWithNative chainId (heapGet h tokensRef) := by
  have hcopy : heapGet (h ++ [heapGet h tokensRef]) tokensRef = heapGet h tokensRef :=
    heapGet_append h (heapGet h tokensRef) tokensRef href
  have hfreshv : heapGet (h ++ [heapGet h tokensRef]) h.length = heapGet h tokensRef :=
    heapGet_fresh h (heapGet h tokensRef)
  have hne : h.length ≠ tokensRef := by omega
  unfold fetchAndStorePricesTokensArray heapAlloc
  simp only []
  unfold tokensWithNative
  split
  · cases hW : wethAddresses chainId with
    | none =>
        simp only [hW]
        exact ⟨hcopy, by omega, hfreshv⟩
    | some W =>
        simp only [hW, hfreshv]
        split
        · exact ⟨hcopy, by omega, hfreshv⟩
        · refine ⟨?_, by omega, ?_⟩
          · rw [heapGet_heapPush_ne _ _ _ _ (by omega)]
            exact hcopy
          · rw [heapGet_heapPush_self _ _ _ (by simp), hfreshv]
  · exact ⟨hcopy, by omega, hfreshv⟩

/-- C10 witness: a one-cell heap holding the DAI token list is unchanged at
the caller's reference. -/
theorem c10_no_input_mutation_witness :
    0 < ([[sampleToken]] : Heap).length
  ∧ heapGet (fetchAndStorePricesTokensArray [[sampleToken]] 0 1).1 0
      = heapGet [[sampleToken]] 0 :=
  ⟨by decide, (c10_no_input_mutation [[sampleToken]] 0 1 (by decide)).1⟩

/-- C2: the progress values a chain's group loop reports to the tracker are
exactly `reportedProgress`; each reported value equals
`min(groupsCompleted * 3 * 500 + lastGroupTokenCount, N)`; the sequence is
monotonically non-decreasing; the final value is exactly `N`; and every
non-final value is strictly below `N`. -/
theorem c2_reported_progress
    (fetch : Nat → List ERC20Token → Except String PriceMap)
    (store : Nat → List PriceRecord → Except String Unit)
    (chainId : Nat) (tokens : List ERC20Token) (h : tokens ≠ []) :
    chainUpdates chainId (processChain fetch store chainId tokens)
        = reportedProgress tokens
  ∧ (∀ j, j < (reportedProgress tokens).length →
        (reportedProgress tokens)[j]?
          = some (min (j * 3 * 500 + groupTokenCount tokens j) tokens.length))
  ∧ (∀ j v w, (reportedProgress tokens)[j]? = some v →
        (reportedProgress tokens)[j + 1]? = some w → v ≤ w)
  ∧ (reportedProgress tokens).getLast? = some tokens.length
  ∧ (∀ j v, j + 1 < (reportedProgress tokens).length →
        (reportedProgress tokens)[j]? = some v → v < tokens.length) := by
  have hM := chunk_length tokens 500 (by omega)
  have hlen := reportedProgress_length tokens
  have hN : 0 < tokens.length := List.length_pos.mpr h
  refine ⟨chainUpdates_processChain fetch store chainId tokens h, ?_, ?_, ?_, ?_⟩
  · intro j hj
    rw [reportedProgress_getElem? tokens j hj, groupTokenCount_eq, Option.some_inj]
    have h3j : j * 3 < (chunk tokens 500).length := by
      rw [hlen] at hj
      omega
    omega
  · intro j v w hv hw
    have hj1 : j + 1 < (reportedProgress tokens).length := by
      by_contra hge
      push_neg at hge
      rw [List.getElem?_eq_none hge] at hw
      cases hw
    rw [reportedProgress_getElem? tokens j (by omega)] at hv
    rw [reportedProgress_getElem? tokens (j + 1) hj1] at hw
    have hv' := Option.some.inj hv
    have hw' := Option.some.inj hw
    omega
  · have hrp : 0 < (reportedProgress tokens).length := by
      rw [hlen]
      omega
    rw [List.getLast?_eq_getElem?, reportedProgress_getElem? tokens _ (by omega),
      Option.some_inj]
    omega
  · intro j v hj1 hv
    rw [reportedProgress_getElem? tokens j (by omega)] at hv
    have hv' := Option.some.inj hv
    rw [hlen] at hj1
    omega

/-- C2 witness: a single token reports the single value 1 = N. -/
theorem c2_reported_progress_witness :
    (reportedProgress [sampleToken]).getLast? = some ([sampleToken].length) :=
  (c2_reported_progress failingFetch okStore 1 [sampleToken] (by decide)).2.2.2.1

/-- C3 counterexample: one mainnet batch whose fetch throws.  The failure is
caught, yet the Progress Tracker's aggregate error counter after the whole
pass is 0, not 1 — the claim's "error counter is incremented by exactly one"
does not hold: the catch block only logs. -/
theorem c3_counterexample :
    failingFetch 1 (tokensWithNative 1 [sampleToken]) = Except.error "fetch failed"
  ∧ statsErrors (runTracker [] (fetchDiscoveredTokens failingFetch okStore
        (Except.ok [(1, [sampleToken])]))) = 0 :=
  ⟨rfl, statsErrors_runTracker_zero [] _ (by simp)⟩

/-- C3 (amended): a batch whose fetch or store throws is caught within that
batch's cycle — every batch of the chain still runs its fetch call, whatever
the other batches do — but the failure performs no progress-tracker
operation at all: a batch's trace leaves any tracker state unchanged, so the
error counter is not incremented. -/
theorem c3_failure_isolated
    (fetch : Nat → List ERC20Token → Except String PriceMap)
    (store : Nat → List PriceRecord → Except String Unit)
    (chainId : Nat) (tokens : List ERC20Token) :
    (∀ tr, runTracker tr (fetchAndStorePrices fetch store chainId tokens) = tr)
  ∧ (∀ b ∈ chunk tokens 500,
        Event.fetchCall chainId (tokensWithNative chainId b)
          ∈ processChain fetch store chainId tokens) := by
  constructor
  · intro tr
    exact runTracker_fetchAndStorePrices fetch store chainId tokens tr
  · intro b hb
    have htok : tokens ≠ [] := by
      intro hnil
      subst hnil
      rw [chunk] at hb
      simp at hb
    unfold processChain
    rw [if_neg (by simpa [List.length_eq_zero] using htok)]
    simp only []
    apply List.mem_cons_of_mem
    apply List.mem_append_left
    have hflat : b ∈ (chunk (chunk tokens 500) 3).flatten := by
      rw [chunk_flatten _ 3 (by omega)]
      exact hb
    rcases List.mem_flatten.mp hflat with ⟨g, hg, hbg⟩
    rcases getElem?_of_mem' hg with ⟨j, hj⟩
    apply List.mem_flatten.mpr
    refine ⟨groupBody fetch store chainId ("chain-" ++ toString chainId) tokens.length
        (chunk (chunk tokens 500) 3).length (j, g), ?_, ?_⟩
    · exact List.mem_map_of_mem _ (List.mk_mem_enum_iff_getElem?.mpr hj)
    · unfold groupBody
      apply List.mem_append_left
      apply List.mem_append_left
      exact List.mem_flatten.mpr
        ⟨fetchAndStorePrices fetch store chainId b, List.mem_map_of_mem _ hbg,
         fetchCall_mem_fetchAndStorePrices fetch store chainId b⟩

/-- C3 witness: with an always-throwing fetcher, the single batch's fetch
call still appears in the chain trace. -/
theorem c3_failure_isolated_witness :
    Event.fetchCall 1 (tokensWithNative 1 [sampleToken])
      ∈ processChain failingFetch okStore 1 [sampleToken] :=
  (c3_failure_isolated failingFetch okStore 1 [sampleToken]).2 [sampleToken]
    (by simp [chunk])

/-- C8: a network with an empty token list only bumps `"processing-all"` —
no per-network entry, no fetch, no store; a network with tokens starts the
entry `chain-<id>` with total = token count, performs exactly one fetch call
per batch (on `tokensWithNative` of that batch), then completes the entry
and bumps `"processing-all"` exactly once; and an orchestration pass is the
`"processing-all"` start (total = number of networks), the per-network
traces, and the `"processing-all"` completion. -/
theorem c8_orchestration
    (fetch : Nat → List ERC20Token → Except String PriceMap)
    (store : Nat → List PriceRecord → Except String Unit)
    (chainId : Nat) (tokens : List ERC20Token) :
    (tokens = [] →
        processChain fetch store chainId tokens
          = [Event.trackerIncrement "processing-all"])
  ∧ (tokens ≠ [] →
        (∃ mid,
          processChain fetch store chainId tokens
            = Event.trackerStart ("chain-" ++ toString chainId) "Fetching Prices"
                tokens.length (some chainId)
              :: mid ++ [Event.trackerComplete ("chain-" ++ toString chainId),
                  Event.trackerIncrement "processing-all"])
      ∧ fetchCalls (processChain fetch store chainId tokens)
          = (chunk tokens 500).map (fun b => (chainId, tokensWithNative chainId b))
      ∧ (processChain fetch store chainId tokens).count
            (Event.trackerIncrement "processing-all") = 1)
  ∧ (∀ tokensByChain : List (Nat × List ERC20Token),
        fetchDiscoveredTokens fetch store (Except.ok tokensByChain)
          = [Event.trackerStart "processing-all" "Processing Chains"
              tokensByChain.length none]
            ++ (tokensByChain.map (fun ct => processChain fetch store ct.1 ct.2)).flatten
            ++ [Event.trackerComplete "processing-all"]) := by
  refine ⟨?_, ?_, fun tokensByChain => rfl⟩
  · intro h
    unfold processChain
    rw [if_pos (by simp [h])]
  · intro h
    have hlen0 : ¬ tokens.length = 0 := by simpa [List.length_eq_zero] using h
    have hmidshape : ∀ e ∈ ((chunk (chunk tokens 500) 3).enum.map
        (groupBody fetch store chainId ("chain-" ++ toString chainId) tokens.length
          (chunk (chunk tokens 500) 3).length)).flatten,
        e ≠ Event.trackerIncrement "processing-all" := by
      intro e he
      rcases List.mem_flatten.mp he with ⟨seg, hseg, hes⟩
      rcases List.mem_map.mp hseg with ⟨ig, _, hgb⟩
      subst hgb
      unfold groupBody at hes
      rcases List.mem_append.mp hes with hes | hes
      · rcases List.mem_append.mp hes with hes | hes
        · rcases List.mem_flatten.mp hes with ⟨tr, htr, het⟩
          rcases List.mem_map.mp htr with ⟨bb, _, hbb⟩
          subst hbb
          rcases fetchAndStorePrices_events fetch store chainId bb e het with
            ⟨c, ts, he'⟩ | ⟨c, rs, he'⟩ | ⟨m, he'⟩ <;> subst he' <;> intro hcontra <;>
            cases hcontra
        · simp at hes
          subst hes
          intro hcontra
          cases hcontra
      · intro hcontra
        subst hcontra
        split at hes <;> simp at hes
    refine ⟨?_, ?_, ?_⟩
    · refine ⟨((chunk (chunk tokens 500) 3).enum.map
        (groupBody fetch store chainId ("chain-" ++ toString chainId) tokens.length
          (chunk (chunk tokens 500) 3).length)).flatten, ?_⟩
      unfold processChain
      rw [if_neg hlen0]
      simp
    · unfold processChain fetchCalls
      rw [if_neg hlen0]
      simp only []
      rw [List.filterMap_append, List.filterMap_append]
      have h1 : List.filterMap fetchCallOf
          [Event.trackerStart ("chain-" ++ toString chainId) "Fetching Prices"
            tokens.length (some chainId)] = [] := by simp [fetchCallOf]
      have h3 : List.filterMap fetchCallOf
          [Event.trackerComplete ("chain-" ++ toString chainId),
           Event.trackerIncrement "processing-all"] = [] := by simp [fetchCallOf]
      rw [h1, h3, List.nil_append, List.append_nil]
      rw [filterMap_flatten, List.map_map]
      have hbody : ((chunk (chunk tokens 500) 3).enum.map
          (List.filterMap fetchCallOf ∘
            groupBody fetch store chainId ("chain-" ++ toString chainId) tokens.length
              (chunk (chunk tokens 500) 3).length))
          = (chunk (chunk tokens 500) 3).enum.map
              (fun ig => ig.2.map (fun b => (chainId, tokensWithNative chainId b))) := by
        apply List.map_congr_left
        intro ig _
        exact fetchCalls_groupBody fetch store chainId tokens.length
          (chunk (chunk tokens 500) 3).length ("chain-" ++ toString chainId) ig
      rw [hbody]
      rw [enum_map_snd_comp (chunk (chunk tokens 500) 3)
        (fun g => g.map (fun b => (chainId, tokensWithNative chainId b)))]
      rw [← List.map_flatten, chunk_flatten _ 3 (by omega)]
    · unfold processChain
      rw [if_neg hlen0]
      simp only []
      rw [List.count_append, List.count_append]
      have hc1 : List.count (Event.trackerIncrement "processing-all")
          [Event.trackerStart ("chain-" ++ toString chainId) "Fetching Prices"
            tokens.length (some chainId)] = 0 := by
        simp [List.count_eq_zero]
      have hc2 : List.count (Event.trackerIncrement "processing-all")
          ((chunk (chunk tokens 500) 3).enum.map
            (groupBody fetch store chainId ("chain-" ++ toString chainId) tokens.length
              (chunk (chunk tokens 500) 3).length)).flatten = 0 := by
        rw [List.count_eq_zero]
        intro hmem
        exact hmidshape _ hmem rfl
      have hc3 : List.count (Event.trackerIncrement "processing-all")
          [Event.trackerComplete ("chain-" ++ toString chainId),
           Event.trackerIncrement "processing-all"] = 1 := by
        simp [List.count_cons, List.count_nil]
      rw [hc1, hc2, hc3]

/-- C8 witness: the empty-list branch at a concrete chain. -/
theorem c8_orchestration_witness :
    processChain failingFetch okStore 10 []
      = [Event.trackerIncrement "processing-all"] :=
  (c8_orchestration failingFetch okStore 10 []).1 rfl

end YPrice
